import Mathlib

/-!
Verification of the mediclaim ZK claim-verifier against its specification.

The development shallowly embeds the TypeScript sources:
  * `claim-witnesses.ts` — the five business-rule witnesses and the private
    rule set (`ClaimPrivateState`);
  * `claim-verifier-simulator.ts` (class `ClaimVerifierSimulator`) — the
    in-memory ledger: `verifyClaim`, `getClaimStatus`,
    `getClaimVerificationHash`;
  * `api/src/utils/index.ts` — encoding helpers (`encodeServiceCode`,
    `bigIntToHex`, `hexToBigInt`), the PHI boundary guard (`assertNoPHI`)
    and the public-input validators (`isPublicInputs`,
    `validatePublicInputs`, `publicInputsFromClaim`).

Modelling conventions:
  * JS `bigint` is `Int` (`Nat` for the claim counter, which starts at `0n`
    and is only ever incremented);
  * JS `Map`/`Set` are association lists / lists with `List.lookup` /
    `List.contains`;
  * fallible JS code (functions that may `throw`) returns `Except String`;
  * provider/patient ids are modelled at the string level: the simulator
    round-trips them through `stringToBytes32` / `TextDecoder` +
    `replace(/\0/g, "")`, and the witnesses only ever compare the decoded
    strings;
  * the EdDSA signature witness (`VERIFY_CLAIM_SIGNATURE`) calls external
    curve cryptography (`circomlibjs`); its outcome is a parameter of the
    embedding (an `Except Unit Bool`: it can throw before its internal
    try/catch, via `ensureInitialized`).
-/

namespace Mediclaim

/-! ## Private rule set (`ClaimPrivateState`, claim-witnesses.ts) -/

/-- `ClaimPrivateState` from claim-witnesses.ts: the private rule set.
`authorizedProviders : Map<string, Set<number>>`,
`eligiblePatients : Set<string>`, `maxClaimAmounts : Map<number, bigint>`,
`minServiceDate`/`maxServiceDate : bigint`. -/
structure ClaimPrivateState where
  authorizedProviders : List (String × List Nat)
  eligiblePatients : List String
  maxClaimAmounts : List (Nat × Int)
  minServiceDate : Int
  maxServiceDate : Int

/-! ## The five witnesses (claim-witnesses.ts) -/

/-- `claimWitnesses.VERIFY_CLAIM_AMOUNT`: looks up `maxClaimAmounts[claimType]`;
`if (!maxAmount) return false` — in JS, a missing entry (`undefined`) and a
`0n` entry are both falsy; otherwise `amount > 0n && amount <= maxAmount`. -/
def VERIFY_CLAIM_AMOUNT (ps : ClaimPrivateState) (claimType : Nat)
    (amount : Int) : Bool :=
  match ps.maxClaimAmounts.lookup claimType with
  | none => false
  | some maxAmount =>
      if maxAmount = 0 then false
      else decide (0 < amount) && decide (amount ≤ maxAmount)

/-- `claimWitnesses.VERIFY_SERVICE_DATE`:
`serviceDate >= minServiceDate && serviceDate <= maxServiceDate &&
serviceDate <= currentTimestamp`. -/
def VERIFY_SERVICE_DATE (ps : ClaimPrivateState) (serviceDate : Int)
    (currentTimestamp : Int) : Bool :=
  decide (ps.minServiceDate ≤ serviceDate) &&
  decide (serviceDate ≤ ps.maxServiceDate) &&
  decide (serviceDate ≤ currentTimestamp)

/-- `claimWitnesses.VERIFY_PROVIDER_AUTHORIZATION`: decodes the provider id
bytes to a string (modelled directly as the string), looks it up in
`authorizedProviders`; a missing entry is falsy (a `Set` object itself is
always truthy, even when empty); otherwise `authorizedClaimTypes.has(claimType)`. -/
def VERIFY_PROVIDER_AUTHORIZATION (ps : ClaimPrivateState)
    (providerId : String) (claimType : Nat) : Bool :=
  match ps.authorizedProviders.lookup providerId with
  | none => false
  | some authorizedClaimTypes => authorizedClaimTypes.contains claimType

/-- `claimWitnesses.VERIFY_PATIENT_ELIGIBILITY`: decodes the patient id bytes
to a string and checks `eligiblePatients.has(patientIdStr)`; the `claimType`
argument is accepted but unused by the implementation. -/
def VERIFY_PATIENT_ELIGIBILITY (ps : ClaimPrivateState) (patientId : String)
    (_claimType : Nat) : Bool :=
  ps.eligiblePatients.contains patientId

/-! ## The in-memory simulator (`ClaimVerifierSimulator`, claim-verifier-simulator.ts) -/

/-- `ClaimStatus` enum from claim-verifier-simulator.ts. -/
inductive ClaimStatus where
  | PENDING
  | APPROVED
  | REJECTED
deriving DecidableEq, Repr

/-- The claim fields passed to `verifyClaim` (the claim object stored in the
`claims` map); signature material is handled separately. -/
structure ClaimArgs where
  claimType : Nat
  amount : Int
  serviceDate : Int
  providerId : String
  patientId : String
  descr : String
  metadata : String
deriving DecidableEq, Repr

/-- The mutable fields of `ClaimVerifierSimulator`:
`claimCounter = 0n`, `claims`, `claimStatuses`, `verificationHashes`
(all `Map<bigint, _>`, modelled as association lists with the most recent
insertion in front). -/
structure SimState where
  claimCounter : Nat
  claims : List (Nat × ClaimArgs)
  claimStatuses : List (Nat × ClaimStatus)
  verificationHashes : List (Nat × String)
deriving Repr

/-- A freshly constructed simulator: counter `0n`, empty maps. -/
def initialSimState : SimState :=
  { claimCounter := 0, claims := [], claimStatuses := [], verificationHashes := [] }

/-- Lowercase hex digit for a value `< 16` (the digits JS produces in
`Buffer.toString("hex")` and `BigInt.toString(16)`): 0–9 land on `'0'`–`'9'`
(codepoint 48 + n), 10–15 on `'a'`–`'f'` (codepoint 87 + n). -/
def hexDigitChar (n : Nat) : Char :=
  if n < 10 then Char.ofNat (48 + n)
  else if n < 16 then Char.ofNat (87 + n)
  else 'f'

/-- One byte as two lowercase hex digits. -/
def byteToHex (b : UInt8) : String :=
  String.mk [hexDigitChar (b.toNat / 16), hexDigitChar (b.toNat % 16)]

/-- `Buffer.from(data).toString("hex")`: UTF-8 bytes of the string as hex. -/
def bufferToHex (s : String) : String :=
  String.join (s.toUTF8.data.toList.map byteToHex)

/-- JS `String.prototype.padStart(n, c)`. -/
def jsPadStart (s : String) (n : Nat) (c : Char) : String :=
  String.mk (List.replicate (n - s.length) c) ++ s

/-- `generateVerificationHash`: hex of
`` `${claimId}-${claimType}-${amount}-${isValid}-${Date.now()}` ``
padded on the left with `"0"` to 64 chars, `0x`-prefixed.  `nowMs` stands for
the `Date.now()` call. -/
def generateVerificationHash (claimId : Nat) (claim : ClaimArgs)
    (isValid : Bool) (nowMs : Int) : String :=
  let data := toString claimId ++ "-" ++ toString claim.claimType ++ "-" ++
    toString claim.amount ++ "-" ++ (if isValid then "true" else "false") ++
    "-" ++ toString nowMs
  "0x" ++ jsPadStart (bufferToHex data) 64 '0'

/-- The record returned by `verifyClaim`. -/
structure VerifyResult where
  isValid : Bool
  claimId : Nat
  verificationHash : String
  status : ClaimStatus
  timestamp : Int
deriving Repr

/-- The try-block of `verifyClaim` (lines 82–122): the five witness calls run
in sequence, each may throw; on success the verdict is
`sigValid && amountValid && dateValid && providerValid && patientValid`; any
throw is caught and yields `isValid = false`. -/
def runWitnessChecks (sig amt dt prov pat : Except Unit Bool) : Bool :=
  match (do
      let a ← sig
      let b ← amt
      let c ← dt
      let d ← prov
      let e ← pat
      pure (a && b && c && d && e) : Except Unit Bool) with
  | Except.ok v => v
  | Except.error _ => false

/-- `ClaimVerifierSimulator.verifyClaim`, parameterised over the evaluation
outcomes of the five witness calls.  The claim id is assigned (and the claim
stored) before the try-block; the status and verification hash are stored
after it, on every path.  `nowSec` stands for
`BigInt(Math.floor(Date.now() / 1000))` and `nowMs` for the `Date.now()`
inside the hash. -/
def verifyClaimWith (st : SimState) (args : ClaimArgs)
    (sig amt dt prov pat : Except Unit Bool) (nowSec nowMs : Int) :
    VerifyResult × SimState :=
  let claimId := st.claimCounter
  let isValid := runWitnessChecks sig amt dt prov pat
  let status := if isValid then ClaimStatus.APPROVED else ClaimStatus.REJECTED
  let verificationHash := generateVerificationHash claimId args isValid nowMs
  (⟨isValid, claimId, verificationHash, status, nowSec⟩,
   { claimCounter := st.claimCounter + 1
     claims := (claimId, args) :: st.claims
     claimStatuses := (claimId, status) :: st.claimStatuses
     verificationHashes := (claimId, verificationHash) :: st.verificationHashes })

/-- `verifyClaim` with the four rule-set witnesses instantiated from
claim-witnesses.ts (they are total functions of the private state); the
EdDSA signature witness outcome stays a parameter (external cryptography). -/
def verifyClaim (ps : ClaimPrivateState) (st : SimState) (args : ClaimArgs)
    (sigResult : Except Unit Bool) (nowSec nowMs : Int) :
    VerifyResult × SimState :=
  verifyClaimWith st args sigResult
    (Except.ok (VERIFY_CLAIM_AMOUNT ps args.claimType args.amount))
    (Except.ok (VERIFY_SERVICE_DATE ps args.serviceDate nowSec))
    (Except.ok (VERIFY_PROVIDER_AUTHORIZATION ps args.providerId args.claimType))
    (Except.ok (VERIFY_PATIENT_ELIGIBILITY ps args.patientId args.claimType))
    nowSec nowMs

/-- `getClaimStatus`: `this.claimStatuses.get(claimId) ?? ClaimStatus.PENDING`.
A pure read: the state is not modified. -/
def getClaimStatus (st : SimState) (claimId : Nat) : ClaimStatus :=
  (st.claimStatuses.lookup claimId).getD ClaimStatus.PENDING

/-- `getClaimVerificationHash`: `this.verificationHashes.get(claimId) ?? ""`.
A pure read: the state is not modified. -/
def getClaimVerificationHash (st : SimState) (claimId : Nat) : String :=
  (st.verificationHashes.lookup claimId).getD ""

/-- A sequence of `verifyClaim` calls (each with its claim args, signature
outcome and clock readings), returning the claim ids in call order together
with the final state. -/
def runClaims (ps : ClaimPrivateState) (st : SimState)
    (inputs : List (ClaimArgs × Except Unit Bool × Int × Int)) :
    List Nat × SimState :=
  match inputs with
  | [] => ([], st)
  | (args, sig, nowSec, nowMs) :: rest =>
      let r := verifyClaim ps st args sig nowSec nowMs
      let t := runClaims ps r.2 rest
      (r.1.claimId :: t.1, t.2)

/-- The ledger invariant: every key of the status and hash maps is below the
counter. -/
def KeysBounded (st : SimState) : Prop :=
  (∀ p ∈ st.claimStatuses, p.1 < st.claimCounter) ∧
  (∀ p ∈ st.verificationHashes, p.1 < st.claimCounter)

/-! ## FieldCodec (api/src/utils/index.ts): hex conversions -/

/-- Hex digit value accepted by `BigInt("0x...")` (and by the
`[0-9a-fA-F]` character class of `hexToBigInt`'s regex): the three
codepoint ranges of the class, with their usual values. -/
def hexCharVal? (c : Char) : Option Nat :=
  if '0' ≤ c ∧ c ≤ '9' then some (c.toNat - 48)
  else if 'a' ≤ c ∧ c ≤ 'f' then some (c.toNat - 87)
  else if 'A' ≤ c ∧ c ≤ 'F' then some (c.toNat - 55)
  else none

/-- Membership in `[0-9a-fA-F]`. -/
def isHexDigit (c : Char) : Bool := (hexCharVal? c).isSome

/-- Value of a hex digit string, most significant digit first (the value
`BigInt("0x" ++ s)` computes for digit-only `s`). -/
def parseHexNat (l : List Char) : Nat :=
  l.foldl (fun acc c => acc * 16 + (hexCharVal? c).getD 0) 0

/-- Minimal big-endian hex digits of `n` (empty for 0): the digit part of
JS `BigInt.prototype.toString(16)`.  The fuel argument (first) bounds the
recursion depth; `fuel ≥ n` is always sufficient. -/
def natToHexAux : Nat → Nat → List Char
  | _, 0 => []
  | 0, _ + 1 => []
  | fuel + 1, n + 1 =>
      natToHexAux fuel ((n + 1) / 16) ++ [hexDigitChar ((n + 1) % 16)]

/-- `n.toString(16)` for a nonnegative JS bigint: minimal lowercase hex,
`"0"` for zero. -/
def natToHexStr (n : Nat) : String :=
  if n = 0 then "0" else String.mk (natToHexAux n n)

/-- `x.toString(16)` for a JS bigint: a leading `"-"` for negative values. -/
def intToHexStr (x : Int) : String :=
  if x < 0 then "-" ++ natToHexStr x.natAbs else natToHexStr x.natAbs

/-- `bigIntToHex`: `const h = x.toString(16); return "0x" + (h.length % 2 ? "0" + h : h)`. -/
def bigIntToHex (x : Int) : String :=
  let h := intToHexStr x
  "0x" ++ (if h.length % 2 = 1 then "0" ++ h else h)

/-- Strip a `0x`/`0X` prefix, as `hexToBigInt` does
(`hex.startsWith("0x") || hex.startsWith("0X") ? hex.slice(2) : hex`),
expressed on the character sequence. -/
def stripHexPrefix (s : String) : String :=
  match s.data with
  | '0' :: 'x' :: rest => String.mk rest
  | '0' :: 'X' :: rest => String.mk rest
  | _ => s

/-- `hexToBigInt`: strips the prefix, rejects any character outside
`[0-9a-fA-F]*`, then evaluates `BigInt("0x" + s)` — which itself throws a
`SyntaxError` when the digit string is empty. -/
def hexToBigInt (s : String) : Except String Int :=
  let t := stripHexPrefix s
  if t.data.all isHexDigit then
    if t.data.isEmpty then Except.error "Cannot convert 0x to a BigInt"
    else Except.ok (Int.ofNat (parseHexNat t.data))
  else Except.error ("Invalid hex: " ++ s)

/-! ## FieldCodec: service-code encoding -/

/-- The character class `[0-9A-Z]` of `encodeServiceCode`'s validation
regex. -/
def base36Chars : List Char :=
  ['0', '1', '2', '3', '4', '5', '6', '7', '8', '9',
   'A', 'B', 'C', 'D', 'E', 'F', 'G', 'H', 'I', 'J', 'K', 'L', 'M',
   'N', 'O', 'P', 'Q', 'R', 'S', 'T', 'U', 'V', 'W', 'X', 'Y', 'Z']

/-- Membership in `[0-9A-Z]`. -/
def isBase36Char (c : Char) : Bool := base36Chars.contains c

/-- `parseInt(ch, 36)` for a character of the class `[0-9A-Z]`:
digits map to 0–9, letters to 10–35. -/
def base36Val (c : Char) : Nat :=
  if c.isDigit then c.toNat - 48 else c.toNat - 55

/-- The base-36 packing loop of `encodeServiceCode`:
`acc = acc * 36n + BigInt(parseInt(ch, 36))` over the characters. -/
def packBase36 (l : List Char) : Nat :=
  l.foldl (fun acc c => acc * 36 + base36Val c) 0

/-- ASCII whitespace stripped by JS `String.prototype.trim` (the embedding
covers the ASCII fragment; exotic Unicode whitespace is out of scope). -/
def isJsSpace (c : Char) : Bool :=
  c = ' ' || c = '\t' || c = '\n' || c = '\r' || c = '\x0b' || c = '\x0c'

/-- JS `String.prototype.toUpperCase` on one character (ASCII fragment:
`a`–`z` map to `A`–`Z`, everything else is unchanged). -/
def jsToUpperChar (c : Char) : Char :=
  if 'a' ≤ c ∧ c ≤ 'z' then Char.ofNat (c.toNat - 32) else c

/-- The normalisation `code.trim().toUpperCase()` (ASCII fragment). -/
def jsNormalize (code : String) : String :=
  String.mk ((((code.data.dropWhile isJsSpace).reverse.dropWhile
    isJsSpace).reverse).map jsToUpperChar)

/-- `encodeServiceCode`: normalises, tests `^[0-9A-Z]+$` (nonempty, all
characters in the class), and packs base-36; any other input throws. -/
def encodeServiceCode (code : String) : Except String Nat :=
  let norm := jsNormalize code
  if norm.data ≠ [] ∧ norm.data.all isBase36Char then
    Except.ok (packBase36 norm.data)
  else
    Except.error ("Invalid service code charset: " ++ code)

/-! ## PHI boundary guard (`assertNoPHI`, api/src/utils/index.ts) -/

/-- JSON-like JS values, as `assertNoPHI` distinguishes them:
`null`, non-object primitives, arrays, and plain objects (finite key/value
maps).  Cyclic object graphs are not representable here; on the acyclic
values the `seen` set of the source never changes the outcome. -/
inductive JVal : Type where
  | null : JVal
  | prim : JVal
  | arr : List JVal → JVal
  | obj : List (String × JVal) → JVal

/-- `PHI_KEYS = new Set(["patientId", "providerId", "serviceCodes",
"invoiceAmount"])`. -/
def PHI_KEYS : List String :=
  ["patientId", "providerId", "serviceCodes", "invoiceAmount"]

mutual

/-- The worklist traversal of `assertNoPHI`; `true` means a `PHIError` is
thrown.  Per the source: a non-object (and an array, and `null`) contributes
nothing; for an object, each entry throws when its key is in `PHI_KEYS`, and
its value is traversed further only when it is itself a non-array object
(`typeof v === "object" && !Array.isArray(v)` — `assertNoPHI` on an array or
primitive returns `false` without looking inside). -/
def assertNoPHI : JVal → Bool
  | JVal.obj fields => phiFields fields
  | _ => false

/-- One object's entries, in iteration order. -/
def phiFields : List (String × JVal) → Bool
  | [] => false
  | (k, v) :: rest =>
      decide (k ∈ PHI_KEYS) || assertNoPHI v || phiFields rest

end

mutual

/-- A PHI key occurrence anywhere in the value, arrays included — the
"present anywhere in the object, at any depth" reading of the spec. -/
def mentionsPHI : JVal → Bool
  | JVal.obj fields => mentionsFields fields
  | JVal.arr elems => mentionsElems elems
  | _ => false

/-- Occurrence within an object's entries. -/
def mentionsFields : List (String × JVal) → Bool
  | [] => false
  | (k, v) :: rest =>
      decide (k ∈ PHI_KEYS) || mentionsPHI v || mentionsFields rest

/-- Occurrence within an array's elements. -/
def mentionsElems : List JVal → Bool
  | [] => false
  | e :: rest => mentionsPHI e || mentionsElems rest

end

/-- Declarative reachability: a PHI key sits in an object reachable from the
root through non-array object values only.  (No constructor looks inside
arrays.) -/
inductive PHIAt : JVal → Prop where
  | here (fields : List (String × JVal)) (k : String) (v : JVal)
      (hmem : (k, v) ∈ fields) (hkey : k ∈ PHI_KEYS) : PHIAt (JVal.obj fields)
  | nest (fields : List (String × JVal)) (k : String) (v : JVal)
      (hmem : (k, v) ∈ fields) (hv : PHIAt v) : PHIAt (JVal.obj fields)

/-! ## Public-input validation (api/src/utils/index.ts) -/

/-- JS numbers as the validators observe them: `NaN`, the two infinities, or
a finite value.  JS doubles are a finite subset of the rationals, and the
only operations performed — `Number.isFinite` and comparison against 0 —
are exact on that subset, so `ℚ` models them faithfully here. -/
inductive JsNum : Type where
  | nan : JsNum
  | posInf : JsNum
  | negInf : JsNum
  | fin : ℚ → JsNum
deriving DecidableEq

/-- `Number.isFinite`. -/
def JsNum.isFinite : JsNum → Bool
  | JsNum.fin _ => true
  | _ => false

/-- The JS comparison `x <= 0` (false on `NaN`). -/
def JsNum.leZero : JsNum → Bool
  | JsNum.nan => false
  | JsNum.posInf => false
  | JsNum.negInf => true
  | JsNum.fin q => decide (q ≤ 0)

/-- JS values at the granularity the `typeof` checks of `isPublicInputs`
distinguish: strings, numbers, and everything else (booleans, `undefined`
for a missing key, `null`, nested objects …). -/
inductive JsVal : Type where
  | str : String → JsVal
  | num : JsNum → JsVal
  | other : JsVal
deriving DecidableEq

/-- `typeof v === "string"`. -/
def JsVal.isString : JsVal → Bool
  | JsVal.str _ => true
  | _ => false

/-- `typeof v === "number"`. -/
def JsVal.isNumber : JsVal → Bool
  | JsVal.num _ => true
  | _ => false

/-- The five properties the validators read off the candidate object
(`undefined`, i.e. `JsVal.other`, when a key is missing; any further keys
are ignored by the validators). -/
structure PubRecord where
  claimId : JsVal
  commitmentHash : JsVal
  timestamp : JsVal
  policyId : JsVal
  policyMax : JsVal
deriving DecidableEq

/-- An `unknown` argument: either not an object at all
(`!p || typeof p !== "object"`) or an object. -/
inductive JsInput : Type where
  | nonObject : JsInput
  | object : PubRecord → JsInput
deriving DecidableEq

/-- The regex test `^0x[0-9a-fA-F]+$` (lowercase `0x`, at least one digit). -/
def is0xHex (s : String) : Bool :=
  match s.data with
  | '0' :: 'x' :: rest => !rest.isEmpty && rest.all isHexDigit
  | _ => false

/-- `isPublicInputs`: object check plus the five `typeof` checks. -/
def isPublicInputs : JsInput → Bool
  | JsInput.nonObject => false
  | JsInput.object r =>
      r.claimId.isString && r.commitmentHash.isString &&
      r.timestamp.isNumber && r.policyId.isString && r.policyMax.isNumber

/-- `validatePublicInputs`: throws `Invalid PublicInputs` unless
`isPublicInputs` holds, then checks the commitment hash against the regex,
`Number.isFinite(timestamp) && timestamp > 0`, and
`Number.isFinite(policyMax) && policyMax > 0`, in that order. -/
def validatePublicInputs (p : JsInput) : Except String Unit :=
  match p with
  | JsInput.nonObject => Except.error "Invalid PublicInputs"
  | JsInput.object r =>
      if !isPublicInputs (JsInput.object r) then
        Except.error "Invalid PublicInputs"
      else
        match r.commitmentHash, r.timestamp, r.policyMax with
        | JsVal.str ch, JsVal.num ts, JsVal.num pm =>
            if !is0xHex ch then Except.error "commitmentHash must be 0x-hex"
            else if !ts.isFinite || ts.leZero then
              Except.error "timestamp must be positive number"
            else if !pm.isFinite || pm.leZero then
              Except.error "policyMax must be positive number"
            else Except.ok ()
        | _, _, _ => Except.error "Invalid PublicInputs"

/-- `ClaimPublic`: `{claimId: string, timestamp: number, policyId: string}`. -/
structure ClaimPublic where
  claimId : String
  timestamp : JsNum
  policyId : String
deriving DecidableEq

/-- `PublicInputs`, the record assembled by `publicInputsFromClaim`. -/
structure PublicInputs where
  claimId : String
  commitmentHash : String
  timestamp : JsNum
  policyId : String
  policyMax : JsNum
deriving DecidableEq

/-- `publicInputsFromClaim`: checks `policyMax`, the commitment hash and the
timestamp (in that order), then returns the record with all fields passed
through unchanged. -/
def publicInputsFromClaim (claim : ClaimPublic) (commitmentHash : String)
    (policyMax : JsNum) : Except String PublicInputs :=
  if !policyMax.isFinite || policyMax.leZero then
    Except.error "policyMax must be a positive number"
  else if !is0xHex commitmentHash then
    Except.error "commitmentHash must be 0x-hex"
  else if !claim.timestamp.isFinite || claim.timestamp.leZero then
    Except.error "timestamp must be positive number"
  else
    Except.ok ⟨claim.claimId, commitmentHash, claim.timestamp, claim.policyId,
      policyMax⟩

end Mediclaim

/-! ## Claim theorems: amount and date predicates -/

open Mediclaim

/-- C3: for every claimType and amount, the Amount predicate returns true iff
claimType has an entry in maxClaimAmounts and 0 < amount ≤ that cap (so the
cap itself passes, cap+1 fails, amount = 0 fails, and an unknown claimType
fails). -/
theorem amount_predicate_iff (ps : ClaimPrivateState) (claimType : Nat)
    (amount : Int) :
    VERIFY_CLAIM_AMOUNT ps claimType amount = true ↔
      ∃ cap, ps.maxClaimAmounts.lookup claimType = some cap ∧
        0 < amount ∧ amount ≤ cap := by
  unfold VERIFY_CLAIM_AMOUNT
  cases h : ps.maxClaimAmounts.lookup claimType with
  | none => simp
  | some cap =>
      by_cases hz : cap = 0
      · subst hz
        simp only [if_pos rfl]
        constructor
        · intro hfalse; exact absurd hfalse (by simp)
        · rintro ⟨c, hc, hpos, hle⟩
          injection hc with hc0
          omega
      · simp only [if_neg hz, Bool.and_eq_true, decide_eq_true_eq]
        constructor
        · rintro ⟨hpos, hle⟩; exact ⟨cap, rfl, hpos, hle⟩
        · rintro ⟨c, hc, hpos, hle⟩
          injection hc with hc0
          subst hc0
          exact ⟨hpos, hle⟩

/-- Helper: the try-block verdict is `false` as soon as one witness call
throws. -/
theorem runWitnessChecks_error (sig amt dt prov pat : Except Unit Bool)
    (herr : sig = Except.error () ∨ amt = Except.error () ∨
            dt = Except.error () ∨ prov = Except.error () ∨
            pat = Except.error ()) :
    runWitnessChecks sig amt dt prov pat = false := by
  cases sig <;> cases amt <;> cases dt <;> cases prov <;> cases pat <;>
    first
      | rfl
      | (exfalso; rcases herr with h | h | h | h | h <;> simp at h)

/-- Helper: the claim ids returned by a run of `verifyClaim` calls count up
from the starting counter. -/
theorem runClaims_ids (ps : ClaimPrivateState) (st : SimState)
    (inputs : List (ClaimArgs × Except Unit Bool × Int × Int)) :
    (runClaims ps st inputs).1 = List.range' st.claimCounter inputs.length := by
  induction inputs generalizing st with
  | nil => simp [runClaims]
  | cons x rest ih =>
      obtain ⟨args, sig, nowSec, nowMs⟩ := x
      simp [runClaims, verifyClaim, verifyClaimWith, List.range', ih]

/-- Helper: a run of `verifyClaim` calls advances the counter by the number
of calls. -/
theorem runClaims_counter (ps : ClaimPrivateState) (st : SimState)
    (inputs : List (ClaimArgs × Except Unit Bool × Int × Int)) :
    (runClaims ps st inputs).2.claimCounter =
      st.claimCounter + inputs.length := by
  induction inputs generalizing st with
  | nil => simp [runClaims]
  | cons x rest ih =>
      obtain ⟨args, sig, nowSec, nowMs⟩ := x
      simp [runClaims, verifyClaim, verifyClaimWith, ih]
      omega

/-- Helper: `verifyClaim` preserves the key-bound invariant. -/
theorem keysBounded_runClaims (ps : ClaimPrivateState) (st : SimState)
    (inputs : List (ClaimArgs × Except Unit Bool × Int × Int))
    (h : KeysBounded st) : KeysBounded (runClaims ps st inputs).2 := by
  induction inputs generalizing st with
  | nil => simpa [runClaims]
  | cons x rest ih =>
      obtain ⟨args, sig, nowSec, nowMs⟩ := x
      simp only [runClaims]
      apply ih
      obtain ⟨h1, h2⟩ := h
      constructor
      · intro p hp
        simp only [verifyClaim, verifyClaimWith, List.mem_cons] at hp ⊢
        rcases hp with hp | hp
        · subst hp; omega
        · exact Nat.lt_succ_of_lt (h1 p hp)
      · intro p hp
        simp only [verifyClaim, verifyClaimWith, List.mem_cons] at hp ⊢
        rcases hp with hp | hp
        · subst hp; omega
        · exact Nat.lt_succ_of_lt (h2 p hp)

/-- Helper: lookup misses when the key differs from every stored key. -/
theorem lookup_none_of_ne {α : Type} (l : List (Nat × α)) (a : Nat)
    (h : ∀ p ∈ l, p.1 ≠ a) : l.lookup a = none := by
  induction l with
  | nil => rfl
  | cons p rest ih =>
      have hne : p.1 ≠ a := h p (List.mem_cons_self p rest)
      have hbeq : (a == p.1) = false := beq_eq_false_iff_ne.mpr (Ne.symm hne)
      simp only [List.lookup, hbeq]
      exact ih fun q hq => h q (List.mem_cons_of_mem p hq)

/-- C4: for every serviceDate and currentTimestamp, the ServiceDate predicate
returns true iff minServiceDate ≤ serviceDate ≤ maxServiceDate and
serviceDate ≤ currentTimestamp; both window bounds are inclusive and any
future-dated claim fails. -/
theorem service_date_predicate_iff (ps : ClaimPrivateState)
    (serviceDate currentTimestamp : Int) :
    VERIFY_SERVICE_DATE ps serviceDate currentTimestamp = true ↔
      (ps.minServiceDate ≤ serviceDate ∧ serviceDate ≤ ps.maxServiceDate ∧
       serviceDate ≤ currentTimestamp) := by
  unfold VERIFY_SERVICE_DATE
  simp [and_assoc]

/-- C1: for every claim submission, the verdict returned by `verifyClaim` is
the logical AND of the five predicate results: `isValid = true` iff the
signature, amount, service-date, provider-authorization and
patient-eligibility checks all return true (so flipping exactly one predicate
to false while the other four hold makes the verdict false). -/
theorem verdict_is_conjunction (ps : ClaimPrivateState) (st : SimState)
    (args : ClaimArgs) (sigValid : Bool) (nowSec nowMs : Int) :
    (verifyClaim ps st args (Except.ok sigValid) nowSec nowMs).1.isValid = true ↔
      (sigValid = true ∧
       VERIFY_CLAIM_AMOUNT ps args.claimType args.amount = true ∧
       VERIFY_SERVICE_DATE ps args.serviceDate nowSec = true ∧
       VERIFY_PROVIDER_AUTHORIZATION ps args.providerId args.claimType = true ∧
       VERIFY_PATIENT_ELIGIBILITY ps args.patientId args.claimType = true) := by
  show (sigValid && VERIFY_CLAIM_AMOUNT ps args.claimType args.amount &&
        VERIFY_SERVICE_DATE ps args.serviceDate nowSec &&
        VERIFY_PROVIDER_AUTHORIZATION ps args.providerId args.claimType &&
        VERIFY_PATIENT_ELIGIBILITY ps args.patientId args.claimType) = true ↔ _
  simp [Bool.and_eq_true, and_assoc]

/-- C2: on a freshly created ledger, any sequence of N `verifyClaim` calls
(any mix of approved and rejected verdicts, any clock readings) returns the
claimIds 0, 1, ..., N-1 in order, with no gaps and no repeats; every
submission consumes an id whatever the verdict. -/
theorem ledger_ids_sequential (ps : ClaimPrivateState)
    (inputs : List (ClaimArgs × Except Unit Bool × Int × Int)) :
    (runClaims ps initialSimState inputs).1 = List.range inputs.length := by
  rw [runClaims_ids]
  simp [initialSimState, List.range_eq_range']

/-- C5: `verifyClaim` is fail-closed.  If any of the five witness evaluations
throws, the call still completes with `isValid = false` and status
`REJECTED`, and the claim id and verification hash are still assigned
(recorded in the maps); and a missing `maxClaimAmounts` rule-set entry makes
the verdict false and the status `REJECTED` as well. -/
theorem verify_fail_closed (st : SimState) (args : ClaimArgs)
    (sig amt dt prov pat : Except Unit Bool) (nowSec nowMs : Int)
    (herr : sig = Except.error () ∨ amt = Except.error () ∨
            dt = Except.error () ∨ prov = Except.error () ∨
            pat = Except.error ()) :
    (verifyClaimWith st args sig amt dt prov pat nowSec nowMs).1.isValid = false ∧
    (verifyClaimWith st args sig amt dt prov pat nowSec nowMs).1.status =
      ClaimStatus.REJECTED ∧
    (verifyClaimWith st args sig amt dt prov pat nowSec nowMs).1.claimId =
      st.claimCounter ∧
    (verifyClaimWith st args sig amt dt prov pat
        nowSec nowMs).2.claimStatuses.lookup st.claimCounter =
      some ClaimStatus.REJECTED ∧
    ((verifyClaimWith st args sig amt dt prov pat
        nowSec nowMs).2.verificationHashes.lookup st.claimCounter).isSome = true ∧
    (∀ ps : ClaimPrivateState, ∀ sigOk : Bool,
      ps.maxClaimAmounts.lookup args.claimType = none →
        (verifyClaim ps st args (Except.ok sigOk) nowSec nowMs).1.isValid = false ∧
        (verifyClaim ps st args (Except.ok sigOk) nowSec nowMs).1.status =
          ClaimStatus.REJECTED) := by
  have hrun := runWitnessChecks_error sig amt dt prov pat herr
  refine ⟨?_, ?_, rfl, ?_, ?_, ?_⟩
  · simpa [verifyClaimWith] using hrun
  · simp [verifyClaimWith, hrun]
  · simp [verifyClaimWith, hrun, List.lookup]
  · simp [verifyClaimWith, List.lookup]
  · intro ps sigOk hmiss
    have hamt : VERIFY_CLAIM_AMOUNT ps args.claimType args.amount = false := by
      simp [VERIFY_CLAIM_AMOUNT, hmiss]
    constructor
    · show (sigOk && VERIFY_CLAIM_AMOUNT ps args.claimType args.amount && _ &&
            _ && _) = false
      simp [hamt]
    · show (if (sigOk && VERIFY_CLAIM_AMOUNT ps args.claimType args.amount &&
            _ && _ && _) = true then ClaimStatus.APPROVED
           else ClaimStatus.REJECTED) = ClaimStatus.REJECTED
      simp [hamt]

/-- Witness for C5: a concrete call whose signature witness throws. -/
theorem verify_fail_closed_witness :
    let args : ClaimArgs := ⟨0, 100, 5, "HOSPITAL_001", "PATIENT_001", "", ""⟩
    (verifyClaimWith initialSimState args (Except.error ()) (Except.ok true)
        (Except.ok true) (Except.ok true) (Except.ok true) 10 10000).1.isValid =
      false ∧
    (verifyClaimWith initialSimState args (Except.error ()) (Except.ok true)
        (Except.ok true) (Except.ok true) (Except.ok true) 10 10000).1.status =
      ClaimStatus.REJECTED ∧
    (verifyClaimWith initialSimState args (Except.error ()) (Except.ok true)
        (Except.ok true) (Except.ok true) (Except.ok true) 10
        10000).1.claimId = 0 ∧
    (verifyClaimWith initialSimState args (Except.error ()) (Except.ok true)
        (Except.ok true) (Except.ok true) (Except.ok true) 10
        10000).2.claimStatuses.lookup 0 = some ClaimStatus.REJECTED ∧
    ((verifyClaimWith initialSimState args (Except.error ()) (Except.ok true)
        (Except.ok true) (Except.ok true) (Except.ok true) 10
        10000).2.verificationHashes.lookup 0).isSome = true := by
  intro args
  have h := verify_fail_closed initialSimState args (Except.error ())
    (Except.ok true) (Except.ok true) (Except.ok true) (Except.ok true)
    10 10000 (Or.inl rfl)
  exact ⟨h.1, h.2.1, h.2.2.1, h.2.2.2.1, h.2.2.2.2.1⟩

/-- C10: a claimId that no `verifyClaim` call has assigned hits no map entry:
`getClaimStatus` returns `PENDING` and `getClaimVerificationHash` returns the
empty string.  Both operations are pure reads of the state in the embedding
(the source methods only call `Map.get`). -/
theorem unassigned_claim_defaults (ps : ClaimPrivateState)
    (inputs : List (ClaimArgs × Except Unit Bool × Int × Int)) (claimId : Nat)
    (h : inputs.length ≤ claimId) :
    getClaimStatus (runClaims ps initialSimState inputs).2 claimId =
      ClaimStatus.PENDING ∧
    getClaimVerificationHash (runClaims ps initialSimState inputs).2 claimId =
      "" := by
  have hinv : KeysBounded (runClaims ps initialSimState inputs).2 :=
    keysBounded_runClaims ps initialSimState inputs
      (by constructor <;> intro p hp <;> simp [initialSimState] at hp)
  have hcnt : (runClaims ps initialSimState inputs).2.claimCounter =
      inputs.length := by
    simpa [initialSimState] using runClaims_counter ps initialSimState inputs
  constructor
  · unfold getClaimStatus
    rw [lookup_none_of_ne]
    · rfl
    · intro p hp
      have := hinv.1 p hp
      omega
  · unfold getClaimVerificationHash
    rw [lookup_none_of_ne]
    · rfl
    · intro p hp
      have := hinv.2 p hp
      omega

/-- Witness for C10: on the fresh ledger, claimId 3 is unassigned and the
queries return the defaults. -/
theorem unassigned_claim_defaults_witness :
    getClaimStatus (runClaims ⟨[], [], [], 0, 0⟩ initialSimState []).2 3 =
      ClaimStatus.PENDING ∧
    getClaimVerificationHash (runClaims ⟨[], [], [], 0, 0⟩ initialSimState []).2
      3 = "" :=
  unassigned_claim_defaults ⟨[], [], [], 0, 0⟩ [] 3 (by decide)

/-! ## Hex conversion lemmas -/

/-- Helper: the printed hex digit parses back to its value. -/
theorem hexCharVal_hexDigitChar (m : Nat) (h : m < 16) :
    hexCharVal? (hexDigitChar m) = some m := by
  interval_cases m <;> rfl

/-- Helper: adequate fuel — every produced character is a hex digit. -/
theorem natToHexAux_all_hex (fuel : Nat) :
    ∀ n, n ≤ fuel → ∀ c ∈ natToHexAux fuel n, isHexDigit c = true := by
  induction fuel with
  | zero =>
      intro n hn c hc
      interval_cases n
      simp [natToHexAux] at hc
  | succ fuel ih =>
      intro n hn c hc
      match n with
      | 0 => simp [natToHexAux] at hc
      | n + 1 =>
          simp only [natToHexAux, List.mem_append, List.mem_singleton] at hc
          rcases hc with hc | hc
          · exact ih ((n + 1) / 16) (by omega) c hc
          · subst hc
            simp [isHexDigit, hexCharVal_hexDigitChar ((n + 1) % 16) (by omega)]

/-- Helper: with adequate fuel the hex digits parse back to the number. -/
theorem parseHex_natToHexAux (fuel : Nat) :
    ∀ n, n ≤ fuel → parseHexNat (natToHexAux fuel n) = n := by
  induction fuel with
  | zero =>
      intro n hn
      interval_cases n
      rfl
  | succ fuel ih =>
      intro n hn
      match n with
      | 0 => rfl
      | n + 1 =>
          have hdiv : (n + 1) / 16 ≤ fuel := by omega
          simp only [natToHexAux, parseHexNat, List.foldl_append, List.foldl_cons,
            List.foldl_nil]
          have := ih ((n + 1) / 16) hdiv
          simp only [parseHexNat] at this
          rw [this, hexCharVal_hexDigitChar ((n + 1) % 16) (by omega)]
          simp only [Option.getD_some]
          omega

/-- Helper: with adequate fuel, a positive number has a nonempty digit list
whose head is not `'0'` (minimality of `toString(16)`). -/
theorem natToHexAux_head (fuel : Nat) :
    ∀ n, 0 < n → n ≤ fuel →
      ∃ c l, natToHexAux fuel n = c :: l ∧ c ≠ '0' := by
  induction fuel with
  | zero => intro n h1 h2; omega
  | succ fuel ih =>
      intro n h1 h2
      match n with
      | n + 1 =>
          by_cases hdiv : (n + 1) / 16 = 0
          · refine ⟨hexDigitChar ((n + 1) % 16), [], ?_, ?_⟩
            · simp [natToHexAux, hdiv]
            · have hr : (n + 1) % 16 = n + 1 := by omega
              have hlt : n ≤ 14 := by omega
              rw [hr]
              interval_cases n <;> decide
          · obtain ⟨c, l, hcl, hc⟩ := ih ((n + 1) / 16) (by omega) (by omega)
            refine ⟨c, l ++ [hexDigitChar ((n + 1) % 16)], ?_, hc⟩
            simp [natToHexAux, hcl]

/-- Helper: a leading `'0'` hex digit does not change the parsed value. -/
theorem parseHexNat_cons_zero (l : List Char) :
    parseHexNat ('0' :: l) = parseHexNat l := by
  simp [parseHexNat, hexCharVal?]

/-- Helper: appending two literal strings appends the character data. -/
theorem string_mk_append (a b : List Char) :
    String.mk a ++ String.mk b = String.mk (a ++ b) := rfl

/-- C8 (amended): for every nonnegative big integer x,
`hexToBigInt (bigIntToHex x) = x`; the output is `0x` followed by an
even-length string of hex digits which is the minimal `toString(16)`
representation with at most one `'0'` prepended for padding (and the minimal
representation itself has no leading zero unless x = 0).  For negative x the
round-trip fails: see the counterexample. -/
theorem bigIntToHex_roundTrip (x : Int) (hx : 0 ≤ x) :
    hexToBigInt (bigIntToHex x) = Except.ok x ∧
    (∃ digits : List Char,
      bigIntToHex x = String.mk ('0' :: 'x' :: digits) ∧
      digits.length % 2 = 0 ∧
      (∀ c ∈ digits, isHexDigit c = true) ∧
      (digits = (intToHexStr x).data ∨ digits = '0' :: (intToHexStr x).data)) ∧
    (x = 0 ∨ ∀ l, (intToHexStr x).data ≠ '0' :: l) := by
  by_cases hzero : x = 0
  · subst hzero
    exact ⟨rfl, ⟨['0', '0'], rfl, rfl, by decide, Or.inr rfl⟩, Or.inl rfl⟩
  · have hpos : 0 < x.natAbs := by omega
    set n := x.natAbs with hn
    have hxn : (n : Int) = x := Int.natAbs_of_nonneg hx
    have hnz : n ≠ 0 := by omega
    have hstr : intToHexStr x = String.mk (natToHexAux n n) := by
      unfold intToHexStr natToHexStr
      rw [if_neg (by omega), if_neg hnz]
    obtain ⟨c, l, hcl, hc⟩ := natToHexAux_head n n hpos le_rfl
    have hall : ∀ ch ∈ natToHexAux n n, isHexDigit ch = true :=
      natToHexAux_all_hex n n le_rfl
    have hparse : parseHexNat (natToHexAux n n) = n :=
      parseHex_natToHexAux n n le_rfl
    have hlen : (intToHexStr x).length = (natToHexAux n n).length := by
      rw [hstr]; rfl
    rw [show bigIntToHex x = "0x" ++
      (if (intToHexStr x).length % 2 = 1 then "0" ++ intToHexStr x
       else intToHexStr x) from rfl]
    by_cases hodd : (intToHexStr x).length % 2 = 1
    · -- one '0' of padding is added
      rw [if_pos hodd]
      have hform : "0x" ++ ("0" ++ intToHexStr x) =
          String.mk ('0' :: 'x' :: '0' :: (natToHexAux n n)) := by
        rw [hstr]
        rfl
      refine ⟨?_, ⟨'0' :: natToHexAux n n, hform, ?_, ?_, Or.inr (by rw [hstr])⟩,
        Or.inr ?_⟩
      · rw [hform]
        unfold hexToBigInt stripHexPrefix
        simp only [List.all_eq_true]
        rw [if_pos ?hhex]
        case hhex =>
          intro ch hch
          simp only [List.mem_cons] at hch
          rcases hch with h | h
          · subst h; decide
          · exact hall ch h
        rw [if_neg (by simp)]
        rw [parseHexNat_cons_zero, hparse]
        exact congrArg Except.ok hxn
      · simp only [List.length_cons]
        omega
      · intro ch hch
        simp only [List.mem_cons] at hch
        rcases hch with h | h
        · subst h; decide
        · exact hall ch h
      · intro l' hl'
        rw [hstr, hcl] at hl'
        have hl2 : c :: l = '0' :: l' := hl'
        injection hl2 with h1 h2
        exact hc h1
    · -- already even length
      rw [if_neg hodd]
      have hform : "0x" ++ intToHexStr x =
          String.mk ('0' :: 'x' :: (natToHexAux n n)) := by
        rw [hstr]
        rfl
      refine ⟨?_, ⟨natToHexAux n n, hform, by omega, hall, Or.inl (by rw [hstr])⟩,
        Or.inr ?_⟩
      · rw [hform]
        unfold hexToBigInt stripHexPrefix
        simp only [List.all_eq_true]
        rw [if_pos hall]
        rw [if_neg (by rw [hcl]; simp)]
        rw [hparse]
        exact congrArg Except.ok hxn
      · intro l' hl'
        rw [hstr, hcl] at hl'
        have hl2 : c :: l = '0' :: l' := hl'
        injection hl2 with h1 h2
        exact hc h1

/-- Counterexample to C8 as stated: for x = -1 (a big integer), the hex
output is `"0x-1"` — not an even-length digit string — and the round-trip
throws instead of returning -1. -/
theorem bigIntToHex_neg_counterexample :
    bigIntToHex (-1) = "0x-1" ∧
    hexToBigInt (bigIntToHex (-1)) = Except.error "Invalid hex: 0x-1" ∧
    hexToBigInt (bigIntToHex (-1)) ≠ Except.ok (-1) := by
  refine ⟨rfl, rfl, ?_⟩
  intro h
  rw [show hexToBigInt (bigIntToHex (-1)) =
      Except.error "Invalid hex: 0x-1" from rfl] at h
  exact Except.noConfusion h

/-- Witness for C8: the round-trip at x = 10 (`0x0a`, padded). -/
theorem bigIntToHex_roundTrip_witness :
    (0 : Int) ≤ 10 ∧ hexToBigInt (bigIntToHex 10) = Except.ok 10 :=
  ⟨by decide, (bigIntToHex_roundTrip 10 (by decide)).1⟩

/-! ## Base-36 packing lemmas -/

/-- Helper: on the character class, `parseInt(ch, 36)` is the index in
`[0-9A-Z]`. -/
theorem base36Val_eq_indexOf (c : Char) (h : c ∈ base36Chars) :
    base36Val c = base36Chars.indexOf c := by
  fin_cases h <;> decide

/-- Helper: digit values are below the base. -/
theorem base36Val_lt (c : Char) (h : c ∈ base36Chars) : base36Val c < 36 := by
  fin_cases h <;> decide

/-- Helper: distinct characters of the class have distinct digit values. -/
theorem base36Val_inj (c d : Char) (hc : c ∈ base36Chars)
    (hd : d ∈ base36Chars) (h : base36Val c = base36Val d) : c = d := by
  rw [base36Val_eq_indexOf c hc, base36Val_eq_indexOf d hd] at h
  exact (List.indexOf_inj hc hd).mp h

/-- Helper: the packing fold from an arbitrary accumulator. -/
theorem packBase36_foldl (l : List Char) (acc : Nat) :
    l.foldl (fun a c => a * 36 + base36Val c) acc =
      acc * 36 ^ l.length + packBase36 l := by
  induction l generalizing acc with
  | nil => simp [packBase36]
  | cons c t ih =>
      simp only [List.foldl_cons, packBase36, List.length_cons]
      rw [ih (acc * 36 + base36Val c), ih (0 * 36 + base36Val c)]
      ring

/-- Helper: peeling the leading digit off the packing. -/
theorem packBase36_cons (c : Char) (t : List Char) :
    packBase36 (c :: t) = base36Val c * 36 ^ t.length + packBase36 t := by
  simp only [packBase36, List.foldl_cons]
  rw [show (0 * 36 + base36Val c) = base36Val c by ring]
  exact packBase36_foldl t (base36Val c)

/-- Helper: the packed value is below `36 ^ length`. -/
theorem packBase36_lt (l : List Char) (h : ∀ c ∈ l, c ∈ base36Chars) :
    packBase36 l < 36 ^ l.length := by
  induction l with
  | nil => simp [packBase36]
  | cons c t ih =>
      have hv := base36Val_lt c (h c (by simp))
      have ht := ih fun d hd => h d (by simp [hd])
      have hK : 0 < 36 ^ t.length := pow_pos (by norm_num) _
      rw [packBase36_cons, List.length_cons, pow_succ]
      nlinarith

/-- Helper: positional decomposition is unique. -/
theorem digit_decompose (K v1 v2 p1 p2 : Nat) (hK : 0 < K) (hp1 : p1 < K)
    (hp2 : p2 < K) (h : v1 * K + p1 = v2 * K + p2) : v1 = v2 ∧ p1 = p2 := by
  have e1 : (v1 * K + p1) / K = v1 := by
    rw [Nat.mul_comm, Nat.mul_add_div hK, Nat.div_eq_of_lt hp1]
    omega
  have e2 : (v2 * K + p2) / K = v2 := by
    rw [Nat.mul_comm, Nat.mul_add_div hK, Nat.div_eq_of_lt hp2]
    omega
  have hv : v1 = v2 := by rw [← e1, h, e2]
  refine ⟨hv, ?_⟩
  subst hv
  exact Nat.add_left_cancel h

/-- Helper: base-36 packing is injective on digit strings of equal length. -/
theorem packBase36_inj (l1 : List Char) :
    ∀ l2 : List Char, (∀ c ∈ l1, c ∈ base36Chars) →
      (∀ c ∈ l2, c ∈ base36Chars) → l1.length = l2.length →
      packBase36 l1 = packBase36 l2 → l1 = l2 := by
  induction l1 with
  | nil =>
      intro l2 _ _ hlen _
      cases l2 with
      | nil => rfl
      | cons d u => simp at hlen
  | cons c t ih =>
      intro l2 h1 h2 hlen heq
      cases l2 with
      | nil => simp at hlen
      | cons d u =>
          have hlen' : t.length = u.length := by simpa using hlen
          rw [packBase36_cons, packBase36_cons, hlen'] at heq
          have hK : 0 < 36 ^ u.length := pow_pos (by norm_num) _
          have hpt : packBase36 t < 36 ^ u.length := by
            rw [← hlen']
            exact packBase36_lt t fun x hx => h1 x (by simp [hx])
          have hpu : packBase36 u < 36 ^ u.length :=
            packBase36_lt u fun x hx => h2 x (by simp [hx])
          obtain ⟨hv, hp⟩ := digit_decompose _ _ _ _ _ hK hpt hpu heq
          have hcd : c = d :=
            base36Val_inj c d (h1 c (by simp)) (h2 d (by simp)) hv
          have htu : t = u :=
            ih u (fun x hx => h1 x (by simp [hx]))
              (fun x hx => h2 x (by simp [hx])) hlen' hp
          rw [hcd, htu]

/-- Helper: acceptance condition of `encodeServiceCode`. -/
theorem encode_accepts_iff (code : String) :
    (∃ w, encodeServiceCode code = Except.ok w) ↔
      ((jsNormalize code).data ≠ [] ∧
       ∀ ch ∈ (jsNormalize code).data, ch ∈ base36Chars) := by
  unfold encodeServiceCode
  by_cases h : (jsNormalize code).data ≠ [] ∧
      (jsNormalize code).data.all isBase36Char
  · rw [if_pos h]
    simp only [List.all_eq_true, isBase36Char, List.elem_iff] at h
    exact ⟨fun _ => h, fun _ => ⟨_, rfl⟩⟩
  · rw [if_neg h]
    simp only [List.all_eq_true, isBase36Char, List.elem_iff] at h
    constructor
    · rintro ⟨w, hw⟩
      exact absurd hw (by simp)
    · intro hcond
      exact absurd hcond h

/-- C7 (amended): `encodeServiceCode` accepts exactly the inputs whose
trimmed, uppercased form is a nonempty string over `[0-9A-Z]`, and on
accepted inputs the base-36 packing is deterministic and injective *among
normalized codes of equal length* — two distinct accepted normalized codes
of the same length always encode differently.  (Reversibility across
different lengths fails: a leading `'0'` digit is absorbed — see the
counterexample.) -/
theorem encodeServiceCode_amended (code c1 c2 : String) (v : Nat)
    (h1 : encodeServiceCode c1 = Except.ok v)
    (h2 : encodeServiceCode c2 = Except.ok v)
    (hlen : (jsNormalize c1).data.length = (jsNormalize c2).data.length) :
    ((∃ w, encodeServiceCode code = Except.ok w) ↔
      ((jsNormalize code).data ≠ [] ∧
       ∀ ch ∈ (jsNormalize code).data, ch ∈ base36Chars)) ∧
    jsNormalize c1 = jsNormalize c2 := by
  refine ⟨encode_accepts_iff code, ?_⟩
  unfold encodeServiceCode at h1 h2
  by_cases hc1 : (jsNormalize c1).data ≠ [] ∧
      (jsNormalize c1).data.all isBase36Char
  · by_cases hc2 : (jsNormalize c2).data ≠ [] ∧
        (jsNormalize c2).data.all isBase36Char
    · rw [if_pos hc1] at h1
      rw [if_pos hc2] at h2
      injection h1 with h1v
      injection h2 with h2v
      have hmem1 : ∀ ch ∈ (jsNormalize c1).data, ch ∈ base36Chars := by
        have := hc1.2
        simpa only [List.all_eq_true, isBase36Char, List.elem_iff] using this
      have hmem2 : ∀ ch ∈ (jsNormalize c2).data, ch ∈ base36Chars := by
        have := hc2.2
        simpa only [List.all_eq_true, isBase36Char, List.elem_iff] using this
      have hdata : (jsNormalize c1).data = (jsNormalize c2).data :=
        packBase36_inj (jsNormalize c1).data (jsNormalize c2).data hmem1 hmem2
          hlen (by rw [h1v, h2v])
      cases hn1 : jsNormalize c1 with
      | mk d1 =>
          cases hn2 : jsNormalize c2 with
          | mk d2 =>
              rw [hn1, hn2] at hdata
              exact congrArg String.mk hdata
    · rw [if_neg hc2] at h2
      exact absurd h2 (by simp)
  · rw [if_neg hc1] at h1
    exact absurd h1 (by simp)

/-- Counterexample to C7 as stated: `"A"` and `"0A"` are distinct accepted
normalized codes, yet both encode to 10 — the packing is not reversible
across codes of different lengths. -/
theorem encodeServiceCode_counterexample :
    encodeServiceCode "A" = Except.ok 10 ∧
    encodeServiceCode "0A" = Except.ok 10 ∧
    jsNormalize "A" = "A" ∧ jsNormalize "0A" = "0A" ∧
    ("A" : String) ≠ "0A" := by
  refine ⟨rfl, rfl, rfl, rfl, by decide⟩

/-- Witness for C7: two accepted inputs `" x01 "` and `"X01"` with the same
normalized length; the theorem yields equal normalized forms. -/
theorem encodeServiceCode_amended_witness :
    encodeServiceCode " x01 " = Except.ok 42769 ∧
    encodeServiceCode "X01" = Except.ok 42769 ∧
    (jsNormalize " x01 ").data.length = (jsNormalize "X01").data.length ∧
    ((∃ w, encodeServiceCode "-" = Except.ok w) ↔
      ((jsNormalize "-").data ≠ [] ∧
       ∀ ch ∈ (jsNormalize "-").data, ch ∈ base36Chars)) ∧
    jsNormalize " x01 " = jsNormalize "X01" := by
  have h := encodeServiceCode_amended "-" " x01 " "X01" 42769 rfl rfl rfl
  exact ⟨rfl, rfl, rfl, h.1, h.2⟩

/-! ## PHI guard lemmas -/

/-- Helper: existential reading of one object level of the guard. -/
theorem phiFields_iff (fields : List (String × JVal)) :
    phiFields fields = true ↔
      ∃ k v, (k, v) ∈ fields ∧ (k ∈ PHI_KEYS ∨ assertNoPHI v = true) := by
  induction fields with
  | nil => simp [phiFields]
  | cons kv rest ih =>
      obtain ⟨k, v⟩ := kv
      simp only [phiFields, Bool.or_eq_true, decide_eq_true_eq, ih,
        List.mem_cons]
      constructor
      · rintro ((hk | hv) | ⟨k', v', hmem, hcase⟩)
        · exact ⟨k, v, Or.inl rfl, Or.inl hk⟩
        · exact ⟨k, v, Or.inl rfl, Or.inr hv⟩
        · exact ⟨k', v', Or.inr hmem, hcase⟩
      · rintro ⟨k', v', hmem | hmem, hcase⟩
        · injection hmem with h1 h2
          subst h1; subst h2
          rcases hcase with hk | hv
          · exact Or.inl (Or.inl hk)
          · exact Or.inl (Or.inr hv)
        · exact Or.inr ⟨k', v', hmem, hcase⟩

/-- Helper: existential reading of one object level of the
anywhere-occurrence check. -/
theorem mentionsFields_iff (fields : List (String × JVal)) :
    mentionsFields fields = true ↔
      ∃ k v, (k, v) ∈ fields ∧ (k ∈ PHI_KEYS ∨ mentionsPHI v = true) := by
  induction fields with
  | nil => simp [mentionsFields]
  | cons kv rest ih =>
      obtain ⟨k, v⟩ := kv
      simp only [mentionsFields, Bool.or_eq_true, decide_eq_true_eq, ih,
        List.mem_cons]
      constructor
      · rintro ((hk | hv) | ⟨k', v', hmem, hcase⟩)
        · exact ⟨k, v, Or.inl rfl, Or.inl hk⟩
        · exact ⟨k, v, Or.inl rfl, Or.inr hv⟩
        · exact ⟨k', v', Or.inr hmem, hcase⟩
      · rintro ⟨k', v', hmem | hmem, hcase⟩
        · injection hmem with h1 h2
          subst h1; subst h2
          rcases hcase with hk | hv
          · exact Or.inl (Or.inl hk)
          · exact Or.inl (Or.inr hv)
        · exact Or.inr ⟨k', v', hmem, hcase⟩

/-- Helper: the guard fires on every value with a reachable PHI key. -/
theorem phiAt_assertNoPHI (v : JVal) (h : PHIAt v) : assertNoPHI v = true := by
  induction h with
  | here fields k w hmem hkey =>
      show phiFields fields = true
      exact (phiFields_iff fields).mpr ⟨k, w, hmem, Or.inl hkey⟩
  | nest fields k w hmem hw ih =>
      show phiFields fields = true
      exact (phiFields_iff fields).mpr ⟨k, w, hmem, Or.inr ih⟩

/-- Helper: whenever the guard fires, a PHI key is reachable through
non-array objects (strong induction on the value size). -/
theorem assertNoPHI_phiAt : ∀ n (v : JVal), sizeOf v ≤ n →
    assertNoPHI v = true → PHIAt v := by
  intro n
  induction n with
  | zero =>
      intro v hv h
      exfalso
      cases v <;> simp at hv
  | succ n ih =>
      intro v hv h
      cases v with
      | null => simp [assertNoPHI] at h
      | prim => simp [assertNoPHI] at h
      | arr elems => simp [assertNoPHI] at h
      | obj fields =>
          have h' : phiFields fields = true := h
          rw [phiFields_iff] at h'
          obtain ⟨k, w, hmem, hcase⟩ := h'
          rcases hcase with hk | hrec
          · exact PHIAt.here fields k w hmem hk
          · refine PHIAt.nest fields k w hmem (ih w ?_ hrec)
            have h1 := List.sizeOf_lt_of_mem hmem
            have h2 : sizeOf (JVal.obj fields) = 1 + sizeOf fields := by simp
            simp only [Prod.mk.sizeOf_spec] at h1
            omega

/-- Helper: a reachable PHI key is in particular an occurring PHI key. -/
theorem phiAt_mentions (v : JVal) (h : PHIAt v) : mentionsPHI v = true := by
  induction h with
  | here fields k w hmem hkey =>
      show mentionsFields fields = true
      exact (mentionsFields_iff fields).mpr ⟨k, w, hmem, Or.inl hkey⟩
  | nest fields k w hmem hw ih =>
      show mentionsFields fields = true
      exact (mentionsFields_iff fields).mpr ⟨k, w, hmem, Or.inr ih⟩

/-- C6 (amended): `assertNoPHI` raises a `PHIError` exactly when one of the
four PHI keys sits in the root object or in an object reachable from it
through non-array object values; consequently a payload containing none of
the keys anywhere passes without error.  Keys nested inside array elements
are *not* detected (the traversal skips arrays — see the counterexample);
on the representable (acyclic) values the traversal always terminates. -/
theorem assertNoPHI_amended (v : JVal) :
    (assertNoPHI v = true ↔ PHIAt v) ∧
    (mentionsPHI v = false → assertNoPHI v = false) := by
  constructor
  · exact ⟨assertNoPHI_phiAt (sizeOf v) v le_rfl, phiAt_assertNoPHI v⟩
  · intro hm
    by_contra h
    rw [Bool.not_eq_false] at h
    have := phiAt_mentions v (assertNoPHI_phiAt (sizeOf v) v le_rfl h)
    rw [hm] at this
    exact Bool.false_ne_true this

/-- Counterexample to C6 as stated: a payload with the key `patientId`
nested inside an array element does not raise — the guard never looks inside
arrays. -/
theorem assertNoPHI_counterexample :
    assertNoPHI
      (JVal.obj [("data", JVal.arr [JVal.obj [("patientId", JVal.prim)]])]) =
      false ∧
    mentionsPHI
      (JVal.obj [("data", JVal.arr [JVal.obj [("patientId", JVal.prim)]])]) =
      true := by
  constructor
  · simp [assertNoPHI, phiFields, PHI_KEYS]
  · simp [mentionsPHI, mentionsFields, mentionsElems, PHI_KEYS]

/-! ## Public-input validation lemmas -/

/-- Helper: `typeof "string"` characterisation. -/
theorem isString_iff (v : JsVal) : v.isString = true ↔ ∃ s, v = JsVal.str s := by
  cases v <;> simp [JsVal.isString]

/-- Helper: `typeof "number"` characterisation. -/
theorem isNumber_iff (v : JsVal) : v.isNumber = true ↔ ∃ x, v = JsVal.num x := by
  cases v <;> simp [JsVal.isNumber]

/-- Helper: `Number.isFinite(x) && !(x <= 0)` means a positive finite value. -/
theorem finite_pos_iff (x : JsNum) :
    (x.isFinite = true ∧ x.leZero = false) ↔
      ∃ q : ℚ, x = JsNum.fin q ∧ 0 < q := by
  cases x <;> simp [JsNum.isFinite, JsNum.leZero, not_le]

/-- C9 (amended): `validatePublicInputs` succeeds exactly when the input is
an object whose claimId and policyId are strings, whose commitmentHash is a
string matching `^0x[0-9a-fA-F]+$`, and whose timestamp and policyMax are
*finite* numbers > 0 — integrality of policyMax is not checked (see the
counterexample), and non-finite numbers are rejected.  Under those
constraints `publicInputsFromClaim` succeeds and returns all five fields
unchanged. -/
theorem validatePublicInputs_amended (p : Mediclaim.JsInput) :
    (validatePublicInputs p = Except.ok () ↔
      ∃ r, p = JsInput.object r ∧
        (∃ s, r.claimId = JsVal.str s) ∧
        (∃ h, r.commitmentHash = JsVal.str h ∧ is0xHex h = true) ∧
        (∃ q : ℚ, r.timestamp = JsVal.num (JsNum.fin q) ∧ 0 < q) ∧
        (∃ s, r.policyId = JsVal.str s) ∧
        (∃ m : ℚ, r.policyMax = JsVal.num (JsNum.fin m) ∧ 0 < m)) ∧
    (∀ (claim : ClaimPublic) (ch : String) (q m : ℚ),
       claim.timestamp = JsNum.fin q → 0 < q → is0xHex ch = true → 0 < m →
       publicInputsFromClaim claim ch (JsNum.fin m) =
         Except.ok ⟨claim.claimId, ch, claim.timestamp, claim.policyId,
           JsNum.fin m⟩) := by
  constructor
  · cases p with
    | nonObject =>
        constructor
        · intro h
          exact absurd h (by simp [validatePublicInputs])
        · rintro ⟨r, hr, -⟩
          exact JsInput.noConfusion hr
    | object r =>
        constructor
        · intro h
          by_cases hip : isPublicInputs (JsInput.object r) = true
          · have hip' := hip
            simp only [isPublicInputs, Bool.and_eq_true] at hip'
            obtain ⟨⟨⟨⟨hcid, hch⟩, hts⟩, hpid⟩, hpm⟩ := hip'
            obtain ⟨sc, hsc⟩ := (isString_iff _).mp hcid
            obtain ⟨sh, hsh⟩ := (isString_iff _).mp hch
            obtain ⟨xt, hxt⟩ := (isNumber_iff _).mp hts
            obtain ⟨sp, hsp⟩ := (isString_iff _).mp hpid
            obtain ⟨xm, hxm⟩ := (isNumber_iff _).mp hpm
            simp only [validatePublicInputs, hip, hsh, hxt, hxm,
              Bool.not_true, Bool.false_eq_true, if_false] at h
            split at h
            · exact absurd h (by simp)
            · split at h
              · exact absurd h (by simp)
              · split at h
                · exact absurd h (by simp)
                · next hhex ht hm =>
                    rw [Bool.not_eq_true] at hhex
                    simp only [Bool.not_eq_true, Bool.or_eq_false_iff,
                      Bool.not_eq_false] at ht hm
                    obtain ⟨qt, hq, hqpos⟩ := (finite_pos_iff xt).mp
                      ⟨by simpa using ht.1, ht.2⟩
                    obtain ⟨qm, hqm, hqmpos⟩ := (finite_pos_iff xm).mp
                      ⟨by simpa using hm.1, hm.2⟩
                    refine ⟨r, rfl, ⟨sc, hsc⟩,
                      ⟨sh, hsh, by simpa using hhex⟩,
                      ⟨qt, by rw [hxt, hq], hqpos⟩, ⟨sp, hsp⟩,
                      ⟨qm, by rw [hxm, hqm], hqmpos⟩⟩
          · rw [Bool.not_eq_true] at hip
            simp only [validatePublicInputs, hip, Bool.not_false,
              if_true] at h
            exact absurd h (by simp)
        · rintro ⟨r0, hr0, ⟨sc, hsc⟩, ⟨sh, hsh, hhex⟩, ⟨qt, hqt, hqtpos⟩,
            ⟨sp, hsp⟩, ⟨qm, hqm, hqmpos⟩⟩
          injection hr0 with hr1
          subst hr1
          have hip : isPublicInputs (JsInput.object r) = true := by
            simp only [isPublicInputs, hsc, hsh, hqt, hsp, hqm]
            rfl
          simp only [validatePublicInputs, hip, hsh, hqt, hqm, hhex,
            Bool.not_true, Bool.false_eq_true, if_false,
            JsNum.isFinite, JsNum.leZero, Bool.false_or]
          rw [if_neg (by simp [not_le, hqtpos]),
            if_neg (by simp [not_le, hqmpos])]
  · intro claim ch q m hts hqpos hhex hmpos
    have h1 : (JsNum.fin m).leZero = false := by
      simp [JsNum.leZero, not_le, hmpos]
    have h2 : (JsNum.fin q).leZero = false := by
      simp [JsNum.leZero, not_le, hqpos]
    simp only [publicInputsFromClaim, hts, hhex, JsNum.isFinite, h1, h2,
      Bool.not_true, Bool.false_eq_true, if_false, Bool.false_or]

/-- Counterexample to C9 as stated: an input whose policyMax is the
non-integer 1/2 passes `validatePublicInputs` — integrality is never
checked, only `Number.isFinite` and positivity. -/
theorem validatePublicInputs_counterexample :
    validatePublicInputs (JsInput.object ⟨JsVal.str "c", JsVal.str "0xab",
      JsVal.num (JsNum.fin 1), JsVal.str "p",
      JsVal.num (JsNum.fin (1 / 2))⟩) = Except.ok () ∧
    ¬ ∃ n : ℤ, ((1 : ℚ) / 2) = (n : ℚ) := by
  constructor
  · have hip : isPublicInputs (JsInput.object ⟨JsVal.str "c",
        JsVal.str "0xab", JsVal.num (JsNum.fin 1), JsVal.str "p",
        JsVal.num (JsNum.fin (1 / 2))⟩) = true := by decide
    have hhex : is0xHex "0xab" = true := by decide
    have h1 : (JsNum.fin ((1 : ℚ) / 2)).leZero = false := by
      simp only [JsNum.leZero, decide_eq_false_iff_not, not_le]
      norm_num
    have h1' : (JsNum.fin ((2 : ℚ)⁻¹)).leZero = false := by
      simp only [JsNum.leZero, decide_eq_false_iff_not, not_le]
      norm_num
    have h2 : (JsNum.fin (1 : ℚ)).leZero = false := by
      simp only [JsNum.leZero, decide_eq_false_iff_not, not_le]
      norm_num
    have hip' : isPublicInputs (JsInput.object ⟨JsVal.str "c",
        JsVal.str "0xab", JsVal.num (JsNum.fin 1), JsVal.str "p",
        JsVal.num (JsNum.fin ((2 : ℚ)⁻¹))⟩) = true := by decide
    simp [validatePublicInputs, hip, hip', hhex, h1, h1', h2,
      JsNum.isFinite]
  · rintro ⟨n, hn⟩
    have h2 : (1 : ℚ) = 2 * (n : ℚ) := by linarith
    have h3 : (1 : ℤ) = 2 * n := by exact_mod_cast h2
    omega
